import Mathlib

/-!
Shallow embedding of the MCPallete TUI configuration editor.

The Rust sources (src/config.rs, src/model.rs, src/main.rs, src/tui.rs)
are translated here: `HashMap` becomes an association list with unique
keys, `ListState` becomes `Option Nat`, the process environment and the
file system become explicit parameters / state components, and the
`Ctrl+S` / `Ctrl+R` / `Ctrl+D` / arrow / space handlers of the event
loop become pure transition functions on an explicit state record.
-/

namespace MCPallete

/-- model.rs: `McpServerConfig` — command, args, env map. -/
structure McpServerConfig where
  command : String
  args : List String
  env : List (String × String)
deriving DecidableEq, Repr

/-- model.rs: `EnvironmentConfig` — configPath, enable, preset, mode. -/
structure EnvironmentConfig where
  config_path : String
  enable : Option (List String)
  preset : Option (List (String × List String))
  mode : Option String
deriving DecidableEq, Repr

/-- model.rs: `McpServersConfig` — the root document. -/
structure McpServersConfig where
  mcp_servers : List (String × McpServerConfig)
  environments : List (String × EnvironmentConfig)
deriving DecidableEq, Repr

/-- model.rs: `ClaudeDesktopConfig` — the export wrapper whose single
field serializes as the top-level key `mcpServers`. -/
structure ClaudeDesktopConfig where
  mcp_servers : List (String × McpServerConfig)
deriving DecidableEq, Repr

/-- `HashMap::get` on the association-list model. -/
def alookup {α : Type} : List (String × α) → String → Option α
  | [], _ => none
  | (k', v) :: rest, k => if k' = k then some v else alookup rest k

/-- `HashMap::insert` (overwrite an existing key, else add). -/
def ainsert {α : Type} : List (String × α) → String → α → List (String × α)
  | [], k, v => [(k, v)]
  | (k', v') :: rest, k, v =>
      if k' = k then (k, v) :: rest else (k', v') :: ainsert rest k v

/-- `HashMap::remove` (keys are unique in the real map). -/
def aremove {α : Type} : List (String × α) → String → List (String × α)
  | [], _ => []
  | (k', v') :: rest, k => if k' = k then rest else (k', v') :: aremove rest k

/-- In-place update of the value stored at a key (`get_mut` + assignment). -/
def aupdate {α : Type} : List (String × α) → String → (α → α) → List (String × α)
  | [], _, _ => []
  | (k', v') :: rest, k, f =>
      if k' = k then (k', f v') :: rest else (k', v') :: aupdate rest k f

theorem alookup_eq_none {α : Type} (m : List (String × α)) (k : String)
    (h : k ∉ m.map Prod.fst) : alookup m k = none := by
  induction m with
  | nil => rfl
  | cons hd tl ih =>
      obtain ⟨k', v'⟩ := hd
      simp only [List.map_cons, List.mem_cons] at h
      push_neg at h
      have hne : k' ≠ k := Ne.symm h.1
      simp [alookup, hne, ih h.2]

theorem alookup_ainsert_self {α : Type} (m : List (String × α)) (k : String) (v : α) :
    alookup (ainsert m k v) k = some v := by
  induction m with
  | nil => simp [ainsert, alookup]
  | cons hd tl ih =>
      obtain ⟨k', v'⟩ := hd
      by_cases h : k' = k <;> simp [ainsert, alookup, h, ih]

theorem alookup_ainsert_ne {α : Type} (m : List (String × α)) (k j : String) (v : α)
    (h : j ≠ k) : alookup (ainsert m k v) j = alookup m j := by
  have h' : k ≠ j := Ne.symm h
  induction m with
  | nil => simp [ainsert, alookup, h']
  | cons hd tl ih =>
      obtain ⟨k', v'⟩ := hd
      by_cases hk : k' = k
      · subst hk
        simp [ainsert, alookup, h']
      · simp [ainsert, alookup, hk, ih]

theorem alookup_aupdate_self {α : Type} (m : List (String × α)) (k : String) (f : α → α) :
    alookup (aupdate m k f) k = (alookup m k).map f := by
  induction m with
  | nil => simp [aupdate, alookup]
  | cons hd tl ih =>
      obtain ⟨k', v'⟩ := hd
      by_cases h : k' = k <;> simp [aupdate, alookup, h, ih]

theorem alookup_aupdate_ne {α : Type} (m : List (String × α)) (k j : String) (f : α → α)
    (h : j ≠ k) : alookup (aupdate m k f) j = alookup m j := by
  have h' : k ≠ j := Ne.symm h
  induction m with
  | nil => simp [aupdate, alookup]
  | cons hd tl ih =>
      obtain ⟨k', v'⟩ := hd
      by_cases hk : k' = k
      · subst hk
        simp [aupdate, alookup, h']
      · simp [aupdate, alookup, hk, ih]

theorem alookup_aremove_self {α : Type} (m : List (String × α)) (k : String)
    (hnd : (m.map Prod.fst).Nodup) : alookup (aremove m k) k = none := by
  induction m with
  | nil => rfl
  | cons hd tl ih =>
      obtain ⟨k', v'⟩ := hd
      simp only [List.map_cons, List.nodup_cons] at hnd
      by_cases h : k' = k
      · subst h
        simp only [aremove, if_pos rfl]
        exact alookup_eq_none tl k' hnd.1
      · simp [aremove, alookup, h, ih hnd.2]

theorem alookup_aremove_ne {α : Type} (m : List (String × α)) (k j : String)
    (h : j ≠ k) : alookup (aremove m k) j = alookup m j := by
  have h' : k ≠ j := Ne.symm h
  induction m with
  | nil => rfl
  | cons hd tl ih =>
      obtain ⟨k', v'⟩ := hd
      by_cases hk : k' = k
      · subst hk
        simp [aremove, alookup, h']
      · simp [aremove, alookup, hk, ih]

/-! ## VariableExpander (config.rs / main.rs `expand_env_vars`)

The Rust regex is `\$([A-Za-z_][A-Za-z0-9_]*)|\$\{([A-Za-z_][A-Za-z0-9_]*)\}`
with leftmost-first, non-overlapping replacement; every matched reference
is replaced by the process-environment value of the captured name, an
unset name yielding the empty string.  The process environment is the
explicit parameter `envv` here. -/

/-- `[A-Za-z_]`, the first character of a variable name. -/
def isNameStart (c : Char) : Bool :=
  ('A' ≤ c && c ≤ 'Z') || ('a' ≤ c && c ≤ 'z') || c = '_'

/-- `[A-Za-z0-9_]`, a subsequent character of a variable name. -/
def isNameChar (c : Char) : Bool :=
  isNameStart c || ('0' ≤ c && c ≤ '9')

/-- Left-to-right scan performing the regex replacement of
`$NAME` / `${NAME}` references against the environment `envv`.  Each
step consumes at least one character, so the scan is written with a
fuel parameter that `expandChars` instantiates with the input length;
the fuel therefore never runs out. -/
def expandFuel (envv : List (String × String)) : Nat → List Char → List Char
  | 0, l => l
  | _ + 1, [] => []
  | fuel + 1, c :: rest =>
    if c = '$' then
      match rest with
      | [] => ['$']
      | d :: rest2 =>
        if isNameStart d then
          let name := d :: rest2.takeWhile isNameChar
          ((alookup envv (String.mk name)).getD "").data ++
            expandFuel envv fuel (rest2.dropWhile isNameChar)
        else if d = '{' then
          match rest2 with
          | [] => '$' :: expandFuel envv fuel [d]
          | e :: rest3 =>
            if isNameStart e then
              if (rest3.dropWhile isNameChar).head? = some '}' then
                let name := e :: rest3.takeWhile isNameChar
                ((alookup envv (String.mk name)).getD "").data ++
                  expandFuel envv fuel (rest3.dropWhile isNameChar).tail
              else '$' :: expandFuel envv fuel (d :: e :: rest3)
            else '$' :: expandFuel envv fuel (d :: e :: rest3)
        else '$' :: expandFuel envv fuel (d :: rest2)
    else c :: expandFuel envv fuel rest

/-- The regex replacement scan at sufficient fuel. -/
def expandChars (envv : List (String × String)) (l : List Char) : List Char :=
  expandFuel envv l.length l

/-- config.rs / main.rs: `expand_env_vars`. -/
def expand_env_vars (envv : List (String × String)) (s : String) : String :=
  String.mk (expandChars envv s.data)

/-! ## SelectionEngine state (main.rs / tui.rs `tui_main` locals)

`ListState` holds an `Option usize`; the on-disk main document and the
export file are modelled as state components (`disk`, `exported`) so
that the persistence effects of the handlers are visible.  Writes can
fail, so the handlers take explicit write outcomes. -/

/-- main.rs / tui.rs: `ActiveColumn`. -/
inductive ActiveColumn where
  | Environments
  | McpServers
  | PresetList
  | PresetSubmit
deriving DecidableEq, Repr

/-- Up or Down arrow, the two `MoveSelection` directions. -/
inductive VDir where
  | up
  | down
deriving DecidableEq, Repr

/-- The mutable locals of the event loop, plus the modelled file system:
`disk` is the parsed content of basic_config.json, `exported` the last
successful export write (path and document). -/
structure TuiState where
  disk : Option McpServersConfig
  exported : Option (String × ClaudeDesktopConfig)
  config : Option McpServersConfig
  env_names : List String
  mcp_names : List String
  env_sel : Option Nat
  mcp_sel : Option Nat
  preset_sel : Option Nat
  preset_names : List String
  mcp_checked : List Bool
  preset_input : String
  active_col : ActiveColumn
deriving DecidableEq, Repr

/-- Success or failure of each `std::fs::write` a Commit can perform:
the export file, the main document in the enable branch, and the main
document in the preset branch. -/
structure WriteOutcome where
  exportOk : Bool
  mainOk : Bool
  presetMainOk : Bool
deriving DecidableEq, Repr

/-- All writes succeed. -/
def allOk : WriteOutcome := ⟨true, true, true⟩

/-- main.rs / tui.rs: `update_env_names`. -/
def update_env_names : Option McpServersConfig → List String
  | some cfg => cfg.environments.map Prod.fst
  | none => []

/-- main.rs / tui.rs: `update_mcp_names`. -/
def update_mcp_names : Option McpServersConfig → List String
  | some cfg => cfg.mcp_servers.map Prod.fst
  | none => []

/-- The name-list computation of main.rs / tui.rs `update_preset_names`. -/
def preset_names_of (config : Option McpServersConfig) (env_names : List String)
    (env_sel : Option Nat) : List String :=
  match config, env_sel with
  | some cfg, some env_idx =>
    match env_names.get? env_idx with
    | some env_name =>
      match alookup cfg.environments env_name with
      | some env_cfg =>
        match env_cfg.preset with
        | some presets => presets.map Prod.fst
        | none => []
      | none => []
    | none => []
  | _, _ => []

/-- The selection reset of `update_preset_names`: index 0 when the list
is non-empty, else no selection. -/
def preset_sel_after (names : List String) : Option Nat :=
  if names.isEmpty then none else some 0

/-- The `mcp_checked` initialization / Ctrl+R recompute block: checkbox
per server name, true when the selected environment's enable set holds
that name. -/
def compute_checked (config : Option McpServersConfig) (env_names mcp_names : List String)
    (env_sel : Option Nat) : List Bool :=
  match config, env_sel with
  | some cfg, some env_idx =>
    match env_names.get? env_idx with
    | some env_name =>
      let enabled := (alookup cfg.environments env_name).bind (·.enable)
      mcp_names.map (fun mcp =>
        match enabled with
        | some v => v.contains mcp
        | none => false)
    | none => List.replicate mcp_names.length false
  | _, _ => List.replicate mcp_names.length false

/-- The Ctrl+R handler: reload the document from disk and recompute
every derived list, selection and the checkbox vector. -/
def reload (s : TuiState) : TuiState :=
  let config := s.disk
  let env_names := update_env_names config
  let mcp_names := update_mcp_names config
  let env_sel := if env_names.isEmpty then none else some 0
  let mcp_sel := if mcp_names.isEmpty then none else some 0
  let preset_names := preset_names_of config env_names env_sel
  let preset_sel := preset_sel_after preset_names
  let mcp_checked := compute_checked config env_names mcp_names env_sel
  { s with config := config, env_names := env_names, mcp_names := mcp_names,
           env_sel := env_sel, mcp_sel := mcp_sel, preset_sel := preset_sel,
           preset_names := preset_names, mcp_checked := mcp_checked }

/-- The index arithmetic of the Up/Down handlers: wraparound at both
ends (`saturating_sub` on the empty-list length). -/
def move_index (dir : VDir) (i len : Nat) : Nat :=
  match dir with
  | .up => if i = 0 then len - 1 else i - 1
  | .down => if i + 1 ≥ len then 0 else i + 1

/-- The Up/Down handler (`MoveSelection`): moves the selection of the
focused list; on the Environments column it also recomputes the preset
list and the checkbox vector from the newly selected environment. -/
def moveSelection (dir : VDir) (s : TuiState) : TuiState :=
  match s.active_col with
  | .Environments =>
      let i := s.env_sel.getD 0
      let nw := move_index dir i s.env_names.length
      let preset_names := preset_names_of s.config s.env_names (some nw)
      let s1 := { s with env_sel := some nw, preset_names := preset_names,
                         preset_sel := preset_sel_after preset_names }
      match s.config, s.env_names.get? nw with
      | some cfg, some env_name =>
          let enabled := (alookup cfg.environments env_name).bind (·.enable)
          { s1 with mcp_checked := s1.mcp_names.map (fun mcp =>
              match enabled with
              | some v => v.contains mcp
              | none => false) }
      | _, _ => s1
  | .McpServers =>
      let i := s.mcp_sel.getD 0
      { s with mcp_sel := some (move_index dir i s.mcp_names.length) }
  | .PresetList =>
      let i := s.preset_sel.getD 0
      { s with preset_sel := some (move_index dir i s.preset_names.length) }
  | .PresetSubmit => s

/-- The Space handler on the MCP Servers column (`ToggleServer`): flip
the checkbox at the selected index when it is in range. -/
def toggleServer (s : TuiState) : TuiState :=
  match s.active_col with
  | .McpServers =>
    match s.mcp_sel with
    | some idx =>
        if idx < s.mcp_checked.length then
          { s with mcp_checked := s.mcp_checked.set idx (!(s.mcp_checked.getD idx false)) }
        else s
    | none => s
  | _ => s

/-- The Space handler on the Preset List column in main.rs
(`ApplyPreset`): replace the checkbox vector from the selected preset's
recorded server set. -/
def applyPreset (s : TuiState) : TuiState :=
  match s.active_col with
  | .PresetList =>
    match s.config, s.env_sel, s.preset_sel with
    | some cfg, some env_idx, some preset_idx =>
      match s.env_names.get? env_idx, s.preset_names.get? preset_idx with
      | some env_name, some preset_name =>
        match alookup cfg.environments env_name with
        | some env_cfg =>
          match env_cfg.preset with
          | some presets =>
            let enabled_list := alookup presets preset_name
            { s with mcp_checked := s.mcp_names.map (fun mcp =>
                match enabled_list with
                | some v => v.contains mcp
                | none => false) }
          | none => s
        | none => s
      | _, _ => s
    | _, _, _ => s
  | _ => s

/-- Rust `str::trim` on the draft text: strip leading and trailing
whitespace. -/
def trimStr (s : String) : String :=
  String.mk (((s.data.dropWhile Char.isWhitespace).reverse.dropWhile
    Char.isWhitespace).reverse)

/-- The checked-name extraction used by Commit for the enable field and
the preset value: `mcp_names.iter().enumerate().filter_map(...)`. -/
def checkedNames (names : List String) (checked : List Bool) : List String :=
  names.enum.filterMap (fun p =>
    if checked.getD p.1 false then some p.2 else none)

/-- The export projection of one server definition: env values
variable-expanded, command and args kept. -/
def expandServer (envv : List (String × String)) (v : McpServerConfig) : McpServerConfig :=
  { v with env := v.env.map (fun p => (p.1, expand_env_vars envv p.2)) }

/-- The `selected_servers` computation of the claude_desktop export:
checked names that resolve in the servers map, with expanded env. -/
def project (envv : List (String × String)) (names : List String) (checked : List Bool)
    (servers : List (String × McpServerConfig)) : List (String × McpServerConfig) :=
  names.enum.filterMap (fun p =>
    if checked.getD p.1 false then
      (alookup servers p.2).map (fun v => (p.2, expandServer envv v))
    else none)

/-- The export step of Ctrl+S (main.rs): when the environment's mode
tag is the literal "claude_desktop" and its configPath is non-empty,
project the checked servers with expanded env values, wrap them as a
`ClaudeDesktopConfig` and write that document to configPath, ignoring a
write failure. -/
def exportPhase (envv : List (String × String)) (w : WriteOutcome) (s : TuiState)
    (cfg : McpServersConfig) (ecfg : EnvironmentConfig) : TuiState :=
  match ecfg.mode with
  | some mode =>
    if mode = "claude_desktop" && !(ecfg.config_path = "") then
      if w.exportOk then
        { s with exported := some (ecfg.config_path,
            ⟨project envv s.mcp_names s.mcp_checked cfg.mcp_servers⟩) }
      else s
    else s
  | none => s

/-- The export step of Ctrl+S as written in tui.rs: identical to
`exportPhase` except that the serialization and write use `?`, so a
failed export write propagates as an error. -/
def exportPhaseE (envv : List (String × String)) (w : WriteOutcome) (s : TuiState)
    (cfg : McpServersConfig) (ecfg : EnvironmentConfig) : Except Unit TuiState :=
  match ecfg.mode with
  | some mode =>
    if mode = "claude_desktop" && !(ecfg.config_path = "") then
      if w.exportOk then
        Except.ok { s with exported := some (ecfg.config_path,
            ⟨project envv s.mcp_names s.mcp_checked cfg.mcp_servers⟩) }
      else Except.error ()
    else Except.ok s
  | none => Except.ok s

/-- The enable-save step of Ctrl+S: replace the selected environment's
enable field with the checked names and write the whole document,
updating the modelled disk only when the write succeeds. -/
def enablePhase (w : WriteOutcome) (s' : TuiState) (cfg : McpServersConfig)
    (env_name : String) : TuiState :=
  let enabled := checkedNames s'.mcp_names s'.mcp_checked
  let envs2 := aupdate cfg.environments env_name (fun e => { e with enable := some enabled })
  let cfg2 := { cfg with environments := envs2 }
  let s'' := { s' with config := some cfg2 }
  if w.mainOk then { s'' with disk := some cfg2 } else s''

/-- The preset-save step of Ctrl+S: when the Preset Submit box is
focused and the draft trims to a non-empty name, insert/overwrite the
preset under the trimmed name with the checked names, write the whole
document, and on success recompute the preset list and clear the
draft. -/
def presetPhase (w : WriteOutcome) (s1 : TuiState) : TuiState :=
  match s1.active_col with
  | .PresetSubmit =>
    if !(trimStr s1.preset_input = "") then
      match s1.config, s1.env_sel with
      | some cfg, some env_idx =>
        match s1.env_names.get? env_idx with
        | some env_name =>
          match alookup cfg.environments env_name with
          | some env_cfg =>
            let presets := env_cfg.preset.getD []
            let enabled := checkedNames s1.mcp_names s1.mcp_checked
            let presets2 := ainsert presets (trimStr s1.preset_input) enabled
            let envs2 := aupdate cfg.environments env_name (fun e => { e with preset := some presets2 })
            let cfg2 := { cfg with environments := envs2 }
            let s2 := { s1 with config := some cfg2 }
            if w.presetMainOk then
              let preset_names := preset_names_of s2.config s2.env_names s2.env_sel
              { s2 with disk := some cfg2, preset_names := preset_names,
                        preset_sel := preset_sel_after preset_names,
                        preset_input := "" }
            else s2
          | none => s1
        | none => s1
      | _, _ => s1
    else s1
  | _ => s1

/-- The Ctrl+S handler as written in main.rs: export (when the mode tag
and path call for it), enable-set replacement and main-document save,
then the preset-save step.  Every write failure is ignored. -/
def commit_main (envv : List (String × String)) (w : WriteOutcome) (s : TuiState) : TuiState :=
  let s1 :=
    match s.config, s.env_sel with
    | some cfg, some env_idx =>
      match s.env_names.get? env_idx with
      | some env_name =>
        match alookup cfg.environments env_name with
        | some env_cfg => enablePhase w (exportPhase envv w s cfg env_cfg) cfg env_name
        | none => s
      | none => s
    | _, _ => s
  presetPhase w s1

/-- The Ctrl+S handler as written in tui.rs: same logic as
`commit_main`, but a failed export write propagates out of `tui_main`
(modelled as `Except.error`); the main-document write result is
discarded with `let _ =`. -/
def commit_tui (envv : List (String × String)) (w : WriteOutcome) (s : TuiState) :
    Except Unit TuiState :=
  let step1 : Except Unit TuiState :=
    match s.config, s.env_sel with
    | some cfg, some env_idx =>
      match s.env_names.get? env_idx with
      | some env_name =>
        match alookup cfg.environments env_name with
        | some env_cfg =>
          match exportPhaseE envv w s cfg env_cfg with
          | Except.error e => Except.error e
          | Except.ok s1 => Except.ok (enablePhase w s1 cfg env_name)
        | none => Except.ok s
      | none => Except.ok s
    | _, _ => Except.ok s
  match step1 with
  | Except.error e => Except.error e
  | Except.ok s1 => Except.ok (presetPhase w s1)

/-- The Ctrl+D handler (`DeletePreset`): remove the selected preset from
the selected environment's preset map, write the whole document at once,
and on a successful write recompute the preset list. -/
def deletePreset (writeOk : Bool) (s : TuiState) : TuiState :=
  match s.active_col with
  | .PresetList =>
    match s.config, s.env_sel, s.preset_sel with
    | some cfg, some env_idx, some preset_idx =>
      match s.env_names.get? env_idx, s.preset_names.get? preset_idx with
      | some env_name, some preset_name =>
        match alookup cfg.environments env_name with
        | some env_cfg =>
          match env_cfg.preset with
          | some presets =>
            let presets2 := aremove presets preset_name
            let envs2 := aupdate cfg.environments env_name (fun e => { e with preset := some presets2 })
            let cfg2 := { cfg with environments := envs2 }
            let s2 := { s with config := some cfg2 }
            if writeOk then
              let preset_names := preset_names_of s2.config s2.env_names s2.env_sel
              { s2 with disk := some cfg2, preset_names := preset_names,
                        preset_sel := preset_sel_after preset_names }
            else s2
          | none => s
        | none => s
      | _, _ => s
    | _, _, _ => s
  | _ => s

/-! ## Derived accessors and general lemmas -/

/-- The environment entry stored under a name in a loaded document. -/
def envOf (c : Option McpServersConfig) (name : String) : Option EnvironmentConfig :=
  c.bind (fun cfg => alookup cfg.environments name)

/-- The persisted enable set of a named environment. -/
def enableOf (c : Option McpServersConfig) (name : String) : Option (List String) :=
  (envOf c name).bind (fun e => e.enable)

/-- The preset map of a named environment. -/
def presetsOf (c : Option McpServersConfig) (name : String) :
    Option (List (String × List String)) :=
  (envOf c name).bind (fun e => e.preset)

/-- The server mapping written by the last export, empty when none
happened. -/
def exportedServers (s : TuiState) : List (String × McpServerConfig) :=
  (s.exported.map (fun p => p.2.mcp_servers)).getD []

/-- The path of the last export write. -/
def exportedPath (s : TuiState) : Option String := s.exported.map (fun p => p.1)

theorem mem_checkedNames (names : List String) (checked : List Bool) (a : String) :
    a ∈ checkedNames names checked ↔
      ∃ i, names.get? i = some a ∧ checked.getD i false = true := by
  unfold checkedNames
  rw [List.mem_filterMap]
  constructor
  · rintro ⟨⟨i, x⟩, hmem, hf⟩
    rw [List.mk_mem_enum_iff_getElem?] at hmem
    by_cases hc : checked.getD i false = true
    · simp only [hc, if_true, Option.some.injEq] at hf
      exact ⟨i, by simpa [List.get?_eq_getElem?, hf] using hmem, hc⟩
    · rw [List.getD_eq_getElem?_getD] at hc
      simp [hc] at hf
  · rintro ⟨i, hget, hc⟩
    rw [List.getD_eq_getElem?_getD] at hc
    refine ⟨(i, a), List.mk_mem_enum_iff_getElem?.mpr ?_, by simp [hc]⟩
    simpa [List.get?_eq_getElem?] using hget

theorem mem_project (envv : List (String × String)) (names : List String)
    (checked : List Bool) (servers : List (String × McpServerConfig))
    (n : String) (v' : McpServerConfig) :
    (n, v') ∈ project envv names checked servers ↔
      ∃ i, names.get? i = some n ∧ checked.getD i false = true ∧
        ∃ v, alookup servers n = some v ∧ v' = expandServer envv v := by
  unfold project
  rw [List.mem_filterMap]
  constructor
  · rintro ⟨⟨i, x⟩, hmem, hf⟩
    rw [List.mk_mem_enum_iff_getElem?] at hmem
    by_cases hc : checked.getD i false = true
    · simp only [hc, if_true, Option.map_eq_some'] at hf
      obtain ⟨v, hv, hpair⟩ := hf
      have hx : x = n := congrArg Prod.fst hpair
      have hv' : expandServer envv v = v' := congrArg Prod.snd hpair
      subst hx
      exact ⟨i, by simpa [List.get?_eq_getElem?] using hmem, hc, v, hv, hv'.symm⟩
    · rw [List.getD_eq_getElem?_getD] at hc
      simp [hc] at hf
  · rintro ⟨i, hget, hc, v, hv, hv'⟩
    rw [List.getD_eq_getElem?_getD] at hc
    refine ⟨(i, n), List.mk_mem_enum_iff_getElem?.mpr ?_, ?_⟩
    · simpa [List.get?_eq_getElem?] using hget
    · simp [hc, hv, hv'.symm]

theorem contains_iff_mem_str (l : List String) (a : String) :
    l.contains a = true ↔ a ∈ l :=
  List.elem_iff

theorem getD_set_self_bool (l : List Bool) (i : Nat) (v : Bool) (h : i < l.length) :
    (l.set i v).getD i false = v := by
  induction l generalizing i with
  | nil => simp at h
  | cons hd tl ih =>
      cases i with
      | zero => rfl
      | succ n => simpa using ih n (by simpa using h)

theorem set_getD_self_bool (l : List Bool) (i : Nat) (h : i < l.length) :
    l.set i (l.getD i false) = l := by
  induction l generalizing i with
  | nil => simp at h
  | cons hd tl ih =>
      cases i with
      | zero => rfl
      | succ n => simpa using ih n (by simpa using h)

theorem exportPhase_exported_only (envv : List (String × String)) (w : WriteOutcome)
    (s : TuiState) (cfg : McpServersConfig) (ecfg : EnvironmentConfig) :
    ∃ ex, exportPhase envv w s cfg ecfg = { s with exported := ex } := by
  unfold exportPhase
  cases ecfg.mode with
  | none => exact ⟨s.exported, rfl⟩
  | some m =>
      by_cases h1 : (m = "claude_desktop" && !(ecfg.config_path = "")) = true
      · by_cases h2 : w.exportOk = true
        · exact ⟨some (ecfg.config_path,
            ⟨project envv s.mcp_names s.mcp_checked cfg.mcp_servers⟩), by simp [h1, h2]⟩
        · exact ⟨s.exported, by simp [h1, h2]⟩
      · exact ⟨s.exported, by simp [h1]⟩

theorem exportPhase_fires (envv : List (String × String)) (w : WriteOutcome)
    (s : TuiState) (cfg : McpServersConfig) (ecfg : EnvironmentConfig)
    (hm : ecfg.mode = some "claude_desktop") (hp : ecfg.config_path ≠ "")
    (hok : w.exportOk = true) :
    exportPhase envv w s cfg ecfg =
      { s with exported := some (ecfg.config_path,
          ⟨project envv s.mcp_names s.mcp_checked cfg.mcp_servers⟩) } := by
  unfold exportPhase
  rw [hm]
  simp [hp, hok]

theorem presetPhase_no_submit (w : WriteOutcome) (s1 : TuiState)
    (h : s1.active_col ≠ ActiveColumn.PresetSubmit) : presetPhase w s1 = s1 := by
  unfold presetPhase
  cases h2 : s1.active_col <;> first | rfl | exact absurd h2 h

theorem presetPhase_blank (w : WriteOutcome) (s1 : TuiState)
    (h : trimStr s1.preset_input = "") : presetPhase w s1 = s1 := by
  unfold presetPhase
  cases h2 : s1.active_col <;> simp [h]

theorem commit_main_phase1 (envv : List (String × String)) (w : WriteOutcome)
    (s : TuiState) (cfg : McpServersConfig) (env_idx : Nat) (en : String)
    (ecfg : EnvironmentConfig)
    (hcfg : s.config = some cfg) (hsel : s.env_sel = some env_idx)
    (hname : s.env_names.get? env_idx = some en)
    (hecfg : alookup cfg.environments en = some ecfg) :
    commit_main envv w s =
      presetPhase w (enablePhase w (exportPhase envv w s cfg ecfg) cfg en) := by
  unfold commit_main
  rw [hcfg, hsel]
  simp only [hname, hecfg]

theorem presetPhase_fires (w : WriteOutcome) (s1 : TuiState) (cfg : McpServersConfig)
    (env_idx : Nat) (en : String) (ecfg : EnvironmentConfig)
    (hcol : s1.active_col = ActiveColumn.PresetSubmit)
    (hne : trimStr s1.preset_input ≠ "")
    (hcfg : s1.config = some cfg) (hsel : s1.env_sel = some env_idx)
    (hname : s1.env_names.get? env_idx = some en)
    (hecfg : alookup cfg.environments en = some ecfg)
    (hok : w.presetMainOk = true) :
    presetPhase w s1 =
      (let presets2 := ainsert (ecfg.preset.getD []) (trimStr s1.preset_input)
         (checkedNames s1.mcp_names s1.mcp_checked)
       let envs2 := aupdate cfg.environments en (fun e => { e with preset := some presets2 })
       let cfg2 : McpServersConfig := { cfg with environments := envs2 }
       let pn := preset_names_of (some cfg2) s1.env_names s1.env_sel
       { s1 with config := some cfg2, disk := some cfg2, preset_names := pn,
                 preset_sel := preset_sel_after pn, preset_input := "" }) := by
  unfold presetPhase
  rw [hcol]
  simp only [hne, hcfg, hsel, hname, hecfg, hok, decide_False, Bool.not_false,
    if_true, ite_true]

/-! ## Concrete fixtures for counterexamples and witnesses -/

/-- A sample server definition. -/
def srvEcho : McpServerConfig := ⟨"echo", ["hi"], [("K", "$V")]⟩

/-- A sample environment: claude_desktop export mode, two presets (one
referring to a server name absent from the servers map), one enabled
server. -/
def envDev : EnvironmentConfig :=
  ⟨"/tmp/out.json", some ["a"], some [("p1", ["a"]), ("p2", ["ghost"])],
   some "claude_desktop"⟩

/-- A sample document with two servers and one environment. -/
def cfgSample : McpServersConfig := ⟨[("a", srvEcho), ("b", srvEcho)], [("dev", envDev)]⟩

/-- The TUI state right after startup on `cfgSample`. -/
def stSample : TuiState :=
  { disk := some cfgSample, exported := none, config := some cfgSample,
    env_names := update_env_names (some cfgSample),
    mcp_names := update_mcp_names (some cfgSample),
    env_sel := some 0, mcp_sel := some 0,
    preset_sel := some 0, preset_names := ["p1", "p2"],
    mcp_checked := compute_checked (some cfgSample) ["dev"] ["a", "b"] (some 0),
    preset_input := "", active_col := ActiveColumn.Environments }

/-- Preset Submit focused with a draft of one space: non-empty text
that trims to the empty string. -/
def stBlankDraft : TuiState :=
  { stSample with active_col := ActiveColumn.PresetSubmit, preset_input := " " }

/-- Preset Submit focused with a draft that trims to "new". -/
def stNewDraft : TuiState :=
  { stSample with active_col := ActiveColumn.PresetSubmit, preset_input := " new " }

/-- Preset List focused with the dangling preset "p2" selected. -/
def stPresetGhost : TuiState :=
  { stSample with active_col := ActiveColumn.PresetList, preset_sel := some 1 }

/-- Preset List focused with preset "p1" selected. -/
def stPresetP1 : TuiState :=
  { stSample with active_col := ActiveColumn.PresetList, preset_sel := some 0 }

/-! ## Claim C1 -/

/-- C1: counterexample — the draft " " is non-empty and Preset Submit is
focused, yet Commit inserts no preset entry (the environment's preset map
is unchanged) and does not clear the draft, because the code tests the
draft after trimming, not mere non-emptiness. -/
theorem C1_counterexample :
    stBlankDraft.preset_input ≠ "" ∧
    stBlankDraft.active_col = ActiveColumn.PresetSubmit ∧
    presetsOf (commit_main [] allOk stBlankDraft).config "dev" =
      some [("p1", ["a"]), ("p2", ["ghost"])] ∧
    (commit_main [] allOk stBlankDraft).preset_input = " " := by
  refine ⟨by decide, rfl, by decide, by decide⟩

/-- The document produced when Commit replaces an environment's enable
set with the checked names. -/
def setEnable (cfg : McpServersConfig) (en : String) (enabled : List String) : McpServersConfig :=
  { cfg with environments := aupdate cfg.environments en (fun e => { e with enable := some enabled }) }

/-- C1 (amended): when an environment is selected and resolvable, a
Commit whose writes succeed replaces that environment's enable set with
exactly the names whose checkbox is true (a pure function of the
checkbox vector, independent of the prior enable content), and the
persisted document equals the in-memory one; when additionally the
Preset Submit column is focused and the draft trims to a NON-EMPTY
string (the code tests the trimmed draft, not the raw draft), the same
Commit also inserts/overwrites the preset entry under the trimmed name
with that same checked name set, leaves every other preset entry
unchanged, and clears the draft. -/
theorem C1_amended (envv : List (String × String)) (s : TuiState)
    (cfg : McpServersConfig) (env_idx : Nat) (en : String) (ecfg : EnvironmentConfig)
    (hcfg : s.config = some cfg) (hsel : s.env_sel = some env_idx)
    (hname : s.env_names.get? env_idx = some en)
    (hecfg : alookup cfg.environments en = some ecfg) :
    (∃ E, enableOf (commit_main envv allOk s).config en = some E ∧
       ∀ a, a ∈ E ↔ ∃ i, s.mcp_names.get? i = some a ∧ s.mcp_checked.getD i false = true) ∧
    (s.active_col = ActiveColumn.PresetSubmit → trimStr s.preset_input ≠ "" →
       ∃ P, presetsOf (commit_main envv allOk s).config en = some P ∧
         (∃ E, alookup P (trimStr s.preset_input) = some E ∧
            ∀ a, a ∈ E ↔ ∃ i, s.mcp_names.get? i = some a ∧ s.mcp_checked.getD i false = true) ∧
         (∀ k, k ≠ trimStr s.preset_input → alookup P k = alookup (ecfg.preset.getD []) k) ∧
         (commit_main envv allOk s).preset_input = "") ∧
    (commit_main envv allOk s).disk = (commit_main envv allOk s).config := by
  obtain ⟨ex, hex⟩ := exportPhase_exported_only envv allOk s cfg ecfg
  rw [commit_main_phase1 envv allOk s cfg env_idx en ecfg hcfg hsel hname hecfg, hex]
  have hen : enablePhase allOk { s with exported := ex } cfg en =
      { s with exported := ex, config := some (setEnable cfg en (checkedNames s.mcp_names s.mcp_checked)), disk := some (setEnable cfg en (checkedNames s.mcp_names s.mcp_checked)) } := rfl
  rw [hen]
  have hlook2 : alookup (setEnable cfg en (checkedNames s.mcp_names s.mcp_checked)).environments en = some { ecfg with enable := some (checkedNames s.mcp_names s.mcp_checked) } := by
    show alookup (aupdate cfg.environments en _) en = _
    rw [alookup_aupdate_self, hecfg]
    rfl
  by_cases hcol : s.active_col = ActiveColumn.PresetSubmit
  · by_cases htrim : trimStr s.preset_input = ""
    · rw [presetPhase_blank _ _ (by simpa using htrim)]
      refine ⟨⟨checkedNames s.mcp_names s.mcp_checked, ?_, fun a => mem_checkedNames _ _ a⟩,
        fun _ h2 => absurd htrim h2, rfl⟩
      simp [enableOf, envOf, hlook2]
    · rw [presetPhase_fires allOk _ _ env_idx en
        { ecfg with enable := some (checkedNames s.mcp_names s.mcp_checked) }
        (by simpa using hcol) (by simpa using htrim) rfl (by simpa using hsel)
        (by simpa using hname) hlook2 rfl]
      refine ⟨⟨checkedNames s.mcp_names s.mcp_checked, ?_, fun a => mem_checkedNames _ _ a⟩,
        fun _ _ => ⟨ainsert (ecfg.preset.getD []) (trimStr s.preset_input)
          (checkedNames s.mcp_names s.mcp_checked), ?_,
          ⟨checkedNames s.mcp_names s.mcp_checked, alookup_ainsert_self _ _ _,
            fun a => mem_checkedNames _ _ a⟩,
          fun k hk => alookup_ainsert_ne _ _ _ _ hk, rfl⟩, rfl⟩
      · simp only [enableOf, envOf, Option.some_bind]
        rw [alookup_aupdate_self, hlook2]
        rfl
      · simp only [presetsOf, envOf, Option.some_bind]
        rw [alookup_aupdate_self, hlook2]
        rfl
  · rw [presetPhase_no_submit _ _ (by simpa using hcol)]
    refine ⟨⟨checkedNames s.mcp_names s.mcp_checked, ?_, fun a => mem_checkedNames _ _ a⟩,
      fun h1 => absurd h1 hcol, rfl⟩
    simp [enableOf, envOf, hlook2]

/-- C1: witness — the amended Commit theorem applied at the concrete
startup state with draft " new ", extracting the persisted = in-memory
conclusion. -/
theorem C1_witness :
    (commit_main [] allOk stNewDraft).disk = (commit_main [] allOk stNewDraft).config :=
  (C1_amended [] stNewDraft cfgSample 0 "dev" envDev rfl rfl rfl (by decide)).2.2

/-! ## Claim C2 -/

/-- C2: a MoveSelection on the focused Environments column
(SelectEnvironment) recomputes the checkbox vector: its length equals
the server-name list length, and entry i is true exactly when the newly
selected environment's persisted enable set (an absent field meaning
the empty set) contains the i-th server name — the recompute does not
depend on the previous checkbox vector, so unsaved edits are
discarded. -/
theorem C2_checked_recompute (dir : VDir) (s : TuiState) (cfg : McpServersConfig)
    (en : String) (ecfg : EnvironmentConfig)
    (hcol : s.active_col = ActiveColumn.Environments)
    (hcfg : s.config = some cfg)
    (hname : s.env_names.get? (move_index dir (s.env_sel.getD 0) s.env_names.length) = some en)
    (hecfg : alookup cfg.environments en = some ecfg) :
    (moveSelection dir s).mcp_checked.length = s.mcp_names.length ∧
    ∀ i name, s.mcp_names.get? i = some name →
      ((moveSelection dir s).mcp_checked.getD i false = true ↔ name ∈ ecfg.enable.getD []) := by
  unfold moveSelection
  rw [hcol]
  simp only [hcfg, hname, hecfg, Option.some_bind]
  constructor
  · exact List.length_map _ _
  · intro i name hget
    rw [List.getD_eq_getElem?_getD, List.getElem?_map]
    rw [List.get?_eq_getElem?] at hget
    rw [hget]
    cases henable : ecfg.enable with
    | none => simp [henable]
    | some v => simp [henable, contains_iff_mem_str]

/-- C2: witness — the recompute theorem applied at the concrete startup
state, extracting the length conclusion. -/
theorem C2_witness :
    (moveSelection VDir.down stSample).mcp_checked.length = stSample.mcp_names.length :=
  (C2_checked_recompute VDir.down stSample cfgSample "dev" envDev rfl rfl rfl (by decide)).1

/-! ## Claim C3 -/

theorem mem_checkedNames_map (names : List String) (f : String → Bool) (a : String) :
    a ∈ checkedNames names (names.map f) ↔ a ∈ names ∧ f a = true := by
  rw [mem_checkedNames]
  constructor
  · rintro ⟨i, hget, hc⟩
    rw [List.getD_eq_getElem?_getD, List.getElem?_map] at hc
    rw [List.get?_eq_getElem?] at hget
    rw [hget] at hc
    simp only [Option.map_some', Option.getD_some] at hc
    exact ⟨List.mem_iff_getElem?.mpr ⟨i, hget⟩, hc⟩
  · rintro ⟨hmem, hf⟩
    obtain ⟨i, hget⟩ := List.mem_iff_getElem?.mp hmem
    refine ⟨i, by rw [List.get?_eq_getElem?]; exact hget, ?_⟩
    rw [List.getD_eq_getElem?_getD, List.getElem?_map, hget]
    simp [hf]

/-- A Commit from a state not focused on the Preset Submit box: the
selected environment's enable set becomes exactly the checked names and
the document is persisted as written. -/
theorem commit_main_enableOf (envv : List (String × String)) (s : TuiState)
    (cfg : McpServersConfig) (env_idx : Nat) (en : String) (ecfg : EnvironmentConfig)
    (hcol : s.active_col ≠ ActiveColumn.PresetSubmit)
    (hcfg : s.config = some cfg) (hsel : s.env_sel = some env_idx)
    (hname : s.env_names.get? env_idx = some en)
    (hecfg : alookup cfg.environments en = some ecfg) :
    enableOf (commit_main envv allOk s).config en =
      some (checkedNames s.mcp_names s.mcp_checked) ∧
    (commit_main envv allOk s).disk = (commit_main envv allOk s).config := by
  obtain ⟨ex, hex⟩ := exportPhase_exported_only envv allOk s cfg ecfg
  rw [commit_main_phase1 envv allOk s cfg env_idx en ecfg hcfg hsel hname hecfg, hex]
  have hen : enablePhase allOk { s with exported := ex } cfg en =
      { s with exported := ex, config := some (setEnable cfg en (checkedNames s.mcp_names s.mcp_checked)), disk := some (setEnable cfg en (checkedNames s.mcp_names s.mcp_checked)) } := rfl
  rw [hen, presetPhase_no_submit _ _ (by simpa using hcol)]
  have hlook2 : alookup (setEnable cfg en (checkedNames s.mcp_names s.mcp_checked)).environments en = some { ecfg with enable := some (checkedNames s.mcp_names s.mcp_checked) } := by
    show alookup (aupdate cfg.environments en _) en = _
    rw [alookup_aupdate_self, hecfg]
    rfl
  exact ⟨by simp [enableOf, envOf, hlook2], rfl⟩

/-- The state produced by ApplyPreset on a resolvable selection. -/
theorem applyPreset_eq (s : TuiState) (cfg : McpServersConfig) (env_idx preset_idx : Nat)
    (en pn : String) (ecfg : EnvironmentConfig) (presets : List (String × List String))
    (ps : List String)
    (hcol : s.active_col = ActiveColumn.PresetList)
    (hcfg : s.config = some cfg) (hsel : s.env_sel = some env_idx)
    (hpsel : s.preset_sel = some preset_idx)
    (hname : s.env_names.get? env_idx = some en)
    (hpname : s.preset_names.get? preset_idx = some pn)
    (hecfg : alookup cfg.environments en = some ecfg)
    (hpresets : ecfg.preset = some presets)
    (hps : alookup presets pn = some ps) :
    applyPreset s = { s with mcp_checked := s.mcp_names.map (fun mcp => ps.contains mcp) } := by
  unfold applyPreset
  rw [hcol]
  simp only [hcfg, hsel, hpsel, hname, hpname, hecfg, hpresets, hps]

/-- C3: counterexample — preset "p2" of environment "dev" records the
set {"ghost"}, a name absent from the servers map; ApplyPreset followed
by Commit persists the empty enable set, which does not contain
"ghost", so the round-trip does not reproduce the recorded set. -/
theorem C3_counterexample :
    presetsOf (stPresetGhost.config) "dev" = some [("p1", ["a"]), ("p2", ["ghost"])] ∧
    stPresetGhost.preset_names.get? 1 = some "p2" ∧
    enableOf (commit_main [] allOk (applyPreset stPresetGhost)).disk "dev" = some [] ∧
    "ghost" ∉ ([] : List String) := by decide

/-- C3 (amended): for a selected, resolvable preset with recorded set
ps, ApplyPreset followed immediately by Commit persists an enable set
equal, as a set, to the INTERSECTION of ps with the server-name list;
the recorded set is reproduced exactly when every name it records
occurs in the servers mapping (a name absent from the servers map is
dropped by the round-trip). -/
theorem C3_amended (envv : List (String × String)) (s : TuiState)
    (cfg : McpServersConfig) (env_idx preset_idx : Nat) (en pn : String)
    (ecfg : EnvironmentConfig) (presets : List (String × List String)) (ps : List String)
    (hcol : s.active_col = ActiveColumn.PresetList)
    (hcfg : s.config = some cfg) (hsel : s.env_sel = some env_idx)
    (hpsel : s.preset_sel = some preset_idx)
    (hname : s.env_names.get? env_idx = some en)
    (hpname : s.preset_names.get? preset_idx = some pn)
    (hecfg : alookup cfg.environments en = some ecfg)
    (hpresets : ecfg.preset = some presets)
    (hps : alookup presets pn = some ps) :
    ∃ E, enableOf (commit_main envv allOk (applyPreset s)).config en = some E ∧
      (commit_main envv allOk (applyPreset s)).disk =
        (commit_main envv allOk (applyPreset s)).config ∧
      (∀ n, n ∈ E ↔ n ∈ s.mcp_names ∧ n ∈ ps) ∧
      ((∀ n, n ∈ ps → n ∈ s.mcp_names) → ∀ n, n ∈ E ↔ n ∈ ps) := by
  rw [applyPreset_eq s cfg env_idx preset_idx en pn ecfg presets ps
    hcol hcfg hsel hpsel hname hpname hecfg hpresets hps]
  obtain ⟨henable, hdisk⟩ := commit_main_enableOf envv
    { s with mcp_checked := s.mcp_names.map (fun mcp => ps.contains mcp) }
    cfg env_idx en ecfg (by simpa using hcol ▸ (by decide : ActiveColumn.PresetList ≠ ActiveColumn.PresetSubmit)) hcfg hsel hname hecfg
  refine ⟨_, henable, hdisk, ?_, ?_⟩
  · intro n
    rw [show ({ s with mcp_checked := s.mcp_names.map (fun mcp => ps.contains mcp) } : TuiState).mcp_names = s.mcp_names from rfl] at *
    rw [mem_checkedNames_map]
    exact and_congr_right (fun _ => contains_iff_mem_str ps n)
  · intro hsub n
    rw [mem_checkedNames_map]
    constructor
    · rintro ⟨_, hc⟩
      exact (contains_iff_mem_str ps n).mp hc
    · intro hn
      exact ⟨hsub n hn, (contains_iff_mem_str ps n).mpr hn⟩

/-- C3: witness — the amended round-trip theorem applied at the concrete
state with preset "p1" = {"a"} selected (whose names all resolve),
extracting the persisted = in-memory conclusion. -/
theorem C3_witness :
    (commit_main [] allOk (applyPreset stPresetP1)).disk =
      (commit_main [] allOk (applyPreset stPresetP1)).config := by
  obtain ⟨E, _, hdisk, _, _⟩ := C3_amended [] stPresetP1 cfgSample 0 0 "dev" "p1" envDev
    [("p1", ["a"]), ("p2", ["ghost"])] ["a"] rfl rfl rfl rfl rfl rfl (by decide) rfl (by decide)
  exact hdisk

/-! ## Claim C4 -/

/-- The servers mapping of a loaded document, empty when none. -/
def serversOf (c : Option McpServersConfig) : List (String × McpServerConfig) :=
  (c.map (fun cfg => cfg.mcp_servers)).getD []

/-- `enablePhase` with successful writes, spelled out. -/
theorem enablePhase_allOk (s' : TuiState) (cfg : McpServersConfig) (en : String) :
    enablePhase allOk s' cfg en =
      { s' with config := some (setEnable cfg en (checkedNames s'.mcp_names s'.mcp_checked)), disk := some (setEnable cfg en (checkedNames s'.mcp_names s'.mcp_checked)) } := rfl

/-- C4: when the selected environment's mode tag is "claude_desktop"
and its export path is non-empty, Commit writes to exactly that path a
document whose single `mcpServers` mapping holds precisely the checked
server names that are present in the servers mapping, each keeping its
command and args with every env value variable-expanded; and the server
definitions retained in the main document are not modified. -/
theorem C4_export (envv : List (String × String)) (s : TuiState)
    (cfg : McpServersConfig) (env_idx : Nat) (en : String) (ecfg : EnvironmentConfig)
    (hcfg : s.config = some cfg) (hsel : s.env_sel = some env_idx)
    (hname : s.env_names.get? env_idx = some en)
    (hecfg : alookup cfg.environments en = some ecfg)
    (hmode : ecfg.mode = some "claude_desktop")
    (hpath : ecfg.config_path ≠ "")
    (hnosubmit : s.active_col ≠ ActiveColumn.PresetSubmit) :
    exportedPath (commit_main envv allOk s) = some ecfg.config_path ∧
    (∀ n v', (n, v') ∈ exportedServers (commit_main envv allOk s) ↔
       (∃ i, s.mcp_names.get? i = some n ∧ s.mcp_checked.getD i false = true) ∧
       ∃ v, alookup cfg.mcp_servers n = some v ∧
         v'.command = v.command ∧ v'.args = v.args ∧
         v'.env = v.env.map (fun p => (p.1, expand_env_vars envv p.2))) ∧
    serversOf (commit_main envv allOk s).config = cfg.mcp_servers := by
  rw [commit_main_phase1 envv allOk s cfg env_idx en ecfg hcfg hsel hname hecfg,
    exportPhase_fires envv allOk s cfg ecfg hmode hpath rfl, enablePhase_allOk,
    presetPhase_no_submit _ _ (by simpa using hnosubmit)]
  refine ⟨rfl, ?_, rfl⟩
  intro n v'
  simp only [exportedServers, Option.map_some', Option.getD_some]
  rw [mem_project]
  constructor
  · rintro ⟨i, hget, hc, v, hv, rfl⟩
    exact ⟨⟨i, hget, hc⟩, v, hv, rfl, rfl, rfl⟩
  · rintro ⟨⟨i, hget, hc⟩, v, hv, hcmd, hargs, henv⟩
    refine ⟨i, hget, hc, v, hv, ?_⟩
    cases v'
    cases v
    simp_all [expandServer]

/-- C4: witness — the export theorem applied at the concrete startup
state with V=42 in the process environment, extracting the export-path
conclusion. -/
theorem C4_witness :
    exportedPath (commit_main [("V", "42")] allOk stSample) = some "/tmp/out.json" :=
  (C4_export [("V", "42")] stSample cfgSample 0 "dev" envDev
    rfl rfl rfl (by decide) rfl (by decide) (by decide)).1

/-! ## Claim C5 -/

theorem expandFuel_no_dollar (envv : List (String × String)) (fuel : Nat) :
    ∀ l : List Char, '$' ∉ l → expandFuel envv fuel l = l := by
  induction fuel with
  | zero => intro l _; rfl
  | succ n ih =>
      intro l hl
      cases l with
      | nil => rfl
      | cons c rest =>
          have hc : ¬(c = '$') := fun e => hl (by simp [e])
          have hr : '$' ∉ rest := fun m => hl (List.mem_cons_of_mem c m)
          simp only [expandFuel, if_neg hc]
          rw [ih rest hr]

/-- C5: counterexample — the regex parses a variable name greedily, so
in "a$Xb" the reference names the variable "Xb", not "X": with X bound
to "1" (and Xb unset) the expansion yields "a", not "a1b". -/
theorem C5_counterexample :
    expand_env_vars [("X", "1")] "a$Xb" = "a" ∧ "a" ≠ "a1b" := ⟨by decide, by decide⟩

/-- C5 (amended): expansion is the identity on any string containing no
'$' character; "$UNSET" with UNSET absent from the environment expands
to ""; "${X}" with X=world expands to "world"; but in "a$Xb" the name
is parsed greedily as "Xb", so with X bound to "1" (and Xb unset) the
result is "a" — the braced form "a${X}b" is the spelling that yields
"a1b". -/
theorem C5_amended :
    (∀ (envv : List (String × String)) (s : String), '$' ∉ s.data →
       expand_env_vars envv s = s) ∧
    expand_env_vars [] "$UNSET" = "" ∧
    expand_env_vars [("X", "world")] "${X}" = "world" ∧
    expand_env_vars [("X", "1")] "a$Xb" = "a" ∧
    expand_env_vars [("X", "1")] "a${X}b" = "a1b" := by
  refine ⟨?_, by decide, by decide, by decide, by decide⟩
  intro envv s hs
  obtain ⟨d⟩ := s
  show String.mk (expandFuel envv d.length d) = String.mk d
  rw [expandFuel_no_dollar envv d.length d hs]

/-- C5: witness — the no-op conjunct applied to a concrete string. -/
theorem C5_witness : expand_env_vars [] "hello" = "hello" :=
  C5_amended.1 [] "hello" (by decide)

/-! ## Claim C6 -/

/-- C6: DeletePreset on a selected, resolvable preset removes exactly
that entry from the selected environment's preset map (the deleted name
no longer resolves, every other preset name resolves as before), leaves
every other environment untouched and every environment's enable set
untouched, and the persisted document immediately equals the in-memory
one, with no Commit involved. -/
theorem C6_delete (s : TuiState) (cfg : McpServersConfig) (env_idx preset_idx : Nat)
    (en pn : String) (ecfg : EnvironmentConfig) (presets : List (String × List String))
    (hcol : s.active_col = ActiveColumn.PresetList)
    (hcfg : s.config = some cfg) (hsel : s.env_sel = some env_idx)
    (hpsel : s.preset_sel = some preset_idx)
    (hname : s.env_names.get? env_idx = some en)
    (hpname : s.preset_names.get? preset_idx = some pn)
    (hecfg : alookup cfg.environments en = some ecfg)
    (hpresets : ecfg.preset = some presets)
    (hnd : (presets.map Prod.fst).Nodup) :
    ∃ P, presetsOf (deletePreset true s).config en = some P ∧
      alookup P pn = none ∧
      (∀ k, k ≠ pn → alookup P k = alookup presets k) ∧
      (∀ e, e ≠ en → envOf (deletePreset true s).config e = envOf s.config e) ∧
      (∀ e, enableOf (deletePreset true s).config e = enableOf s.config e) ∧
      (deletePreset true s).disk = (deletePreset true s).config := by
  have hdel : deletePreset true s =
      (let envs2 := aupdate cfg.environments en (fun e => { e with preset := some (aremove presets pn) })
       let cfg2 : McpServersConfig := { cfg with environments := envs2 }
       let pnames := preset_names_of (some cfg2) s.env_names s.env_sel
       { s with config := some cfg2, disk := some cfg2, preset_names := pnames,
                preset_sel := preset_sel_after pnames }) := by
    unfold deletePreset
    rw [hcol]
    simp only [hcfg, hsel, hpsel, hname, hpname, hecfg, hpresets, if_true, ite_true]
  rw [hdel]
  refine ⟨aremove presets pn, ?_, alookup_aremove_self presets pn hnd,
    fun k hk => alookup_aremove_ne presets pn k hk, ?_, ?_, rfl⟩
  · simp only [presetsOf, envOf, Option.some_bind]
    rw [alookup_aupdate_self, hecfg]
    rfl
  · intro e he
    simp only [envOf, Option.some_bind, hcfg]
    rw [alookup_aupdate_ne _ _ _ _ he]
  · intro e
    by_cases he : e = en
    · subst he
      simp only [enableOf, envOf, Option.some_bind, hcfg]
      rw [alookup_aupdate_self, hecfg]
      rfl
    · simp only [enableOf, envOf, Option.some_bind, hcfg]
      rw [alookup_aupdate_ne _ _ _ _ he]

/-- C6: witness — the delete theorem applied at the concrete state with
preset "p1" selected, extracting the persisted = in-memory conclusion. -/
theorem C6_witness :
    (deletePreset true stPresetP1).disk = (deletePreset true stPresetP1).config := by
  obtain ⟨P, _, _, _, _, _, hdisk⟩ := C6_delete stPresetP1 cfgSample 0 0 "dev" "p1" envDev
    [("p1", ["a"]), ("p2", ["ghost"])] rfl rfl rfl rfl rfl rfl (by decide) rfl (by decide)
  exact hdisk

/-! ## Claim C7 -/

/-- The startup state over an absent document: every list empty, no
selection. -/
def stEmpty : TuiState :=
  { disk := none, exported := none, config := none, env_names := [], mcp_names := [],
    env_sel := none, mcp_sel := none, preset_sel := none, preset_names := [],
    mcp_checked := [], preset_input := "", active_col := ActiveColumn.Environments }

/-- Servers column focused in the sample state. -/
def stServers : TuiState := { stSample with active_col := ActiveColumn.McpServers }

/-- C7: counterexample — on the empty focused Environments list with no
selection, MoveSelection is not a no-op and the selection does not stay
"none": the handler unconditionally stores Some(0). -/
theorem C7_counterexample :
    stEmpty.env_names = [] ∧ stEmpty.env_sel = none ∧
    (moveSelection VDir.down stEmpty).env_sel = some 0 := by decide

theorem move_index_down_mod (j len : Nat) (h : j < len) :
    move_index VDir.down j len = (j + 1) % len := by
  unfold move_index
  by_cases hE : j + 1 ≥ len
  · have hEq : j + 1 = len := by omega
    simp [hE, hEq]
  · have hlt : j + 1 < len := by omega
    simp [hE, Nat.mod_eq_of_lt hlt]

/-- The Up/Down handler on the focused Servers column, spelled out. -/
theorem moveSelection_mcp (dir : VDir) (t : TuiState)
    (hcol : t.active_col = ActiveColumn.McpServers) :
    moveSelection dir t =
      { t with mcp_sel := some (move_index dir (t.mcp_sel.getD 0) t.mcp_names.length) } := by
  unfold moveSelection
  rw [hcol]

theorem moveDown_iterate (s : TuiState)
    (hcol : s.active_col = ActiveColumn.McpServers)
    (i : Nat) (hsel : s.mcp_sel = some i) (hi : i < s.mcp_names.length) :
    ∀ k, (fun t => moveSelection VDir.down t)^[k] s =
      { s with mcp_sel := some ((i + k) % s.mcp_names.length) } := by
  intro k
  induction k with
  | zero =>
      rw [Function.iterate_zero, id_eq, Nat.add_zero, Nat.mod_eq_of_lt hi, ← hsel]
  | succ k ihk =>
      rw [Function.iterate_succ_apply', ihk,
        moveSelection_mcp VDir.down _ (show ({ s with mcp_sel := some ((i + k) % s.mcp_names.length) } : TuiState).active_col = ActiveColumn.McpServers from hcol)]
      have hlen : 0 < s.mcp_names.length := Nat.lt_of_le_of_lt (Nat.zero_le i) hi
      have hmod : (i + k) % s.mcp_names.length < s.mcp_names.length := Nat.mod_lt _ hlen
      have hmi : move_index VDir.down ((i + k) % s.mcp_names.length) s.mcp_names.length =
          (i + (k + 1)) % s.mcp_names.length := by
        rw [move_index_down_mod _ _ hmod, Nat.mod_add_mod, Nat.add_assoc]
      exact congrArg (fun x => { s with mcp_sel := some x }) hmi

/-- The Up/Down handler on the focused Preset List column, spelled
out. -/
theorem moveSelection_preset (dir : VDir) (t : TuiState)
    (hcol : t.active_col = ActiveColumn.PresetList) :
    moveSelection dir t =
      { t with preset_sel := some (move_index dir (t.preset_sel.getD 0) t.preset_names.length) } := by
  unfold moveSelection
  rw [hcol]

theorem moveDown_iterate_preset (s : TuiState)
    (hcol : s.active_col = ActiveColumn.PresetList)
    (i : Nat) (hsel : s.preset_sel = some i) (hi : i < s.preset_names.length) :
    ∀ k, (fun t => moveSelection VDir.down t)^[k] s =
      { s with preset_sel := some ((i + k) % s.preset_names.length) } := by
  intro k
  induction k with
  | zero =>
      rw [Function.iterate_zero, id_eq, Nat.add_zero, Nat.mod_eq_of_lt hi, ← hsel]
  | succ k ihk =>
      rw [Function.iterate_succ_apply', ihk,
        moveSelection_preset VDir.down _ (show ({ s with preset_sel := some ((i + k) % s.preset_names.length) } : TuiState).active_col = ActiveColumn.PresetList from hcol)]
      have hlen : 0 < s.preset_names.length := Nat.lt_of_le_of_lt (Nat.zero_le i) hi
      have hmod : (i + k) % s.preset_names.length < s.preset_names.length := Nat.mod_lt _ hlen
      have hmi : move_index VDir.down ((i + k) % s.preset_names.length) s.preset_names.length =
          (i + (k + 1)) % s.preset_names.length := by
        rw [move_index_down_mod _ _ hmod, Nat.mod_add_mod, Nat.add_assoc]
      exact congrArg (fun x => { s with preset_sel := some x }) hmi

/-- The fields of the Up/Down handler on the focused Environments
column that the selection-index behavior depends on: the new selected
index, and the preservation of the name list and the focused column
(the handler additionally recomputes the preset list and possibly the
checkbox vector, which do not feed back into the index). -/
theorem moveSelection_env_fields (dir : VDir) (t : TuiState)
    (hcol : t.active_col = ActiveColumn.Environments) :
    (moveSelection dir t).env_sel =
      some (move_index dir (t.env_sel.getD 0) t.env_names.length) ∧
    (moveSelection dir t).env_names = t.env_names ∧
    (moveSelection dir t).active_col = ActiveColumn.Environments := by
  cases hc : t.config with
  | none => simp [moveSelection, hcol, hc]
  | some cfg =>
      cases hn : t.env_names.get? (move_index dir (t.env_sel.getD 0) t.env_names.length) with
      | none =>
          rw [List.get?_eq_getElem?] at hn
          simp [moveSelection, hcol, hc, hn]
      | some en =>
          rw [List.get?_eq_getElem?] at hn
          simp [moveSelection, hcol, hc, hn]

theorem moveDown_iterate_env (s : TuiState)
    (hcol : s.active_col = ActiveColumn.Environments)
    (i : Nat) (hsel : s.env_sel = some i) (hi : i < s.env_names.length) :
    ∀ k, ((fun t => moveSelection VDir.down t)^[k] s).env_sel =
        some ((i + k) % s.env_names.length) ∧
      ((fun t => moveSelection VDir.down t)^[k] s).env_names = s.env_names ∧
      ((fun t => moveSelection VDir.down t)^[k] s).active_col =
        ActiveColumn.Environments := by
  intro k
  induction k with
  | zero =>
      refine ⟨?_, rfl, hcol⟩
      rw [Function.iterate_zero, id_eq, Nat.add_zero, Nat.mod_eq_of_lt hi, hsel]
  | succ k ihk =>
      obtain ⟨h1, h2, h3⟩ := ihk
      obtain ⟨f1, f2, f3⟩ := moveSelection_env_fields VDir.down _ h3
      simp only [Function.iterate_succ_apply'] at *
      refine ⟨?_, ?_, f3⟩
      · rw [f1, h1, h2]
        have hlen : 0 < s.env_names.length := Nat.lt_of_le_of_lt (Nat.zero_le i) hi
        have hmod : (i + k) % s.env_names.length < s.env_names.length :=
          Nat.mod_lt _ hlen
        rw [Option.getD_some, move_index_down_mod _ _ hmod, Nat.mod_add_mod,
          Nat.add_assoc]
      · rw [f2, h2]

/-- C7 (amended): on every focused list — Environments, Servers or
Preset List — a non-empty list moves its selection by one with
wraparound: Up from index 0 selects the last index, Down from the last
index selects 0, and Down applied length-many times returns to the
starting index (for the Servers and Preset List columns the whole state
returns; for the Environments column the selected index does, that
handler also recomputing derived lists).  On an EMPTY focused list,
however, MoveSelection is not a no-op: it stores selection index 0
(which denotes no item) rather than leaving the selection "none". -/
theorem C7_amended (s : TuiState) :
    (s.active_col = ActiveColumn.McpServers →
      (s.mcp_names ≠ [] → s.mcp_sel = some 0 →
         (moveSelection VDir.up s).mcp_sel = some (s.mcp_names.length - 1)) ∧
      (s.mcp_names ≠ [] → s.mcp_sel = some (s.mcp_names.length - 1) →
         (moveSelection VDir.down s).mcp_sel = some 0) ∧
      (∀ i, s.mcp_sel = some i → i < s.mcp_names.length →
         (fun t => moveSelection VDir.down t)^[s.mcp_names.length] s = s) ∧
      (s.mcp_names = [] → s.mcp_sel = none →
         ∀ dir, (moveSelection dir s).mcp_sel = some 0)) ∧
    (s.active_col = ActiveColumn.Environments →
      (s.env_names ≠ [] → s.env_sel = some 0 →
         (moveSelection VDir.up s).env_sel = some (s.env_names.length - 1)) ∧
      (s.env_names ≠ [] → s.env_sel = some (s.env_names.length - 1) →
         (moveSelection VDir.down s).env_sel = some 0) ∧
      (∀ i, s.env_sel = some i → i < s.env_names.length →
         ((fun t => moveSelection VDir.down t)^[s.env_names.length] s).env_sel = some i) ∧
      (s.env_names = [] → s.env_sel = none →
         ∀ dir, (moveSelection dir s).env_sel = some 0)) ∧
    (s.active_col = ActiveColumn.PresetList →
      (s.preset_names ≠ [] → s.preset_sel = some 0 →
         (moveSelection VDir.up s).preset_sel = some (s.preset_names.length - 1)) ∧
      (s.preset_names ≠ [] → s.preset_sel = some (s.preset_names.length - 1) →
         (moveSelection VDir.down s).preset_sel = some 0) ∧
      (∀ i, s.preset_sel = some i → i < s.preset_names.length →
         (fun t => moveSelection VDir.down t)^[s.preset_names.length] s = s) ∧
      (s.preset_names = [] → s.preset_sel = none →
         ∀ dir, (moveSelection dir s).preset_sel = some 0)) := by
  refine ⟨fun hcol => ⟨?_, ?_, ?_, ?_⟩, fun hcol => ⟨?_, ?_, ?_, ?_⟩,
    fun hcol => ⟨?_, ?_, ?_, ?_⟩⟩
  · intro _ hsel
    unfold moveSelection
    rw [hcol]
    simp [hsel, move_index]
  · intro hne hsel
    unfold moveSelection
    rw [hcol]
    have hlen : 0 < s.mcp_names.length := List.length_pos.mpr hne
    simp only [hsel, Option.getD_some, move_index]
    have : s.mcp_names.length - 1 + 1 ≥ s.mcp_names.length := by omega
    simp [this]
  · intro i hsel hi
    rw [moveDown_iterate s hcol i hsel hi s.mcp_names.length,
      Nat.add_mod_right, Nat.mod_eq_of_lt hi, ← hsel]
  · intro hnames hsel dir
    unfold moveSelection
    rw [hcol]
    cases dir <;> simp [hsel, hnames, move_index]
  · intro _ hsel
    obtain ⟨f1, _, _⟩ := moveSelection_env_fields VDir.up s hcol
    rw [f1, hsel]
    simp [move_index]
  · intro hne hsel
    obtain ⟨f1, _, _⟩ := moveSelection_env_fields VDir.down s hcol
    rw [f1, hsel]
    have hlen : 0 < s.env_names.length := List.length_pos.mpr hne
    simp only [Option.getD_some, move_index]
    have : s.env_names.length - 1 + 1 ≥ s.env_names.length := by omega
    simp [this]
  · intro i hsel hi
    obtain ⟨h1, _, _⟩ := moveDown_iterate_env s hcol i hsel hi s.env_names.length
    rw [h1, Nat.add_mod_right, Nat.mod_eq_of_lt hi]
  · intro hnames hsel dir
    obtain ⟨f1, _, _⟩ := moveSelection_env_fields dir s hcol
    rw [f1, hsel, hnames]
    cases dir <;> simp [move_index]
  · intro _ hsel
    rw [moveSelection_preset VDir.up s hcol]
    simp [hsel, move_index]
  · intro hne hsel
    rw [moveSelection_preset VDir.down s hcol]
    have hlen : 0 < s.preset_names.length := List.length_pos.mpr hne
    simp only [hsel, Option.getD_some, move_index]
    have : s.preset_names.length - 1 + 1 ≥ s.preset_names.length := by omega
    simp [this]
  · intro i hsel hi
    rw [moveDown_iterate_preset s hcol i hsel hi s.preset_names.length,
      Nat.add_mod_right, Nat.mod_eq_of_lt hi, ← hsel]
  · intro hnames hsel dir
    rw [moveSelection_preset dir s hcol]
    cases dir <;> simp [hsel, hnames, move_index]

/-- C7: witness — moving Down twice on the two-server list returns to
the original state. -/
theorem C7_witness :
    (fun t => moveSelection VDir.down t)^[stServers.mcp_names.length] stServers = stServers :=
  ((C7_amended stServers).1 rfl).2.2.1 0 rfl (by decide)

/-! ## Claim C8 -/

/-- C8: Reload is idempotent — a second Reload with the disk unchanged
yields exactly the same derived state (environment, server and preset
name lists, all three selections, and the checkbox vector) as the
first. -/
theorem C8_reload_idem (s : TuiState) :
    (reload (reload s)).env_names = (reload s).env_names ∧
    (reload (reload s)).mcp_names = (reload s).mcp_names ∧
    (reload (reload s)).preset_names = (reload s).preset_names ∧
    (reload (reload s)).env_sel = (reload s).env_sel ∧
    (reload (reload s)).mcp_sel = (reload s).mcp_sel ∧
    (reload (reload s)).preset_sel = (reload s).preset_sel ∧
    (reload (reload s)).mcp_checked = (reload s).mcp_checked :=
  ⟨rfl, rfl, rfl, rfl, rfl, rfl, rfl⟩

/-! ## Claim C9 -/

/-- Write outcome where only the export write fails. -/
def exportFails : WriteOutcome := ⟨false, true, true⟩

/-- C9: counterexample — in the tui.rs event loop (the variant whose
export serialization and write use the ? operator), the sample state's
environment is in claude_desktop mode with a non-empty path, and a
failing export write during Commit escapes the handler: `tui_main`
returns an error instead of keeping the loop running. -/
theorem C9_counterexample :
    commit_tui [] exportFails stSample = Except.error () := by rfl

theorem exportPhaseE_ok (envv : List (String × String)) (w : WriteOutcome) (s : TuiState)
    (cfg : McpServersConfig) (ecfg : EnvironmentConfig) (hexp : w.exportOk = true) :
    ∃ s', exportPhaseE envv w s cfg ecfg = Except.ok s' := by
  unfold exportPhaseE
  cases ecfg.mode with
  | none => exact ⟨s, rfl⟩
  | some m =>
      by_cases h1 : (m = "claude_desktop" && !(ecfg.config_path = "")) = true
      · exact ⟨{ s with exported := some (ecfg.config_path,
          ⟨project envv s.mcp_names s.mcp_checked cfg.mcp_servers⟩) }, by simp [h1, hexp]⟩
      · exact ⟨s, by simp [h1]⟩

theorem presetPhase_disk (w : WriteOutcome) (s1 : TuiState)
    (h : w.presetMainOk = false) : (presetPhase w s1).disk = s1.disk := by
  unfold presetPhase
  split
  · split
    · split
      · split
        · split
          · simp [h]
          · rfl
        · rfl
      · rfl
    · rfl
  · rfl

/-- C9 (amended): the main.rs Commit handler absorbs every write
failure — with all writes failing, the persisted document is untouched
and the loop state survives; the tui.rs Commit handler absorbs a
main-document write failure the same way, and returns to the loop
whenever the export write succeeds or no export is attempted, but (per
the counterexample) a failing export write escapes the tui.rs event
loop as an error. -/
theorem C9_amended (envv : List (String × String)) (w : WriteOutcome) (s : TuiState)
    (hexp : w.exportOk = true) :
    (∃ t, commit_tui envv w s = Except.ok t) ∧
    (commit_main envv ⟨w.exportOk, false, false⟩ s).disk = s.disk := by
  constructor
  · unfold commit_tui
    cases hc : s.config with
    | none => exact ⟨presetPhase w s, by cases s.env_sel <;> rfl⟩
    | some cfg =>
        cases hs : s.env_sel with
        | none => exact ⟨presetPhase w s, rfl⟩
        | some env_idx =>
            cases hn : s.env_names.get? env_idx with
            | none =>
                rw [List.get?_eq_getElem?] at hn
                exact ⟨presetPhase w s, by simp [hn]⟩
            | some en =>
                rw [List.get?_eq_getElem?] at hn
                cases he : alookup cfg.environments en with
                | none => exact ⟨presetPhase w s, by simp [hn, he]⟩
                | some ecfg =>
                    obtain ⟨s', hs'⟩ := exportPhaseE_ok envv w s cfg ecfg hexp
                    exact ⟨presetPhase w (enablePhase w s' cfg en), by simp [hn, he, hs']⟩
  · have hpm : (⟨w.exportOk, false, false⟩ : WriteOutcome).presetMainOk = false := rfl
    unfold commit_main
    cases hc : s.config with
    | none =>
        rw [presetPhase_disk _ _ hpm]
    | some cfg =>
        cases hs : s.env_sel with
        | none => rw [presetPhase_disk _ _ hpm]
        | some env_idx =>
            cases hn : s.env_names.get? env_idx with
            | none =>
                have hn2 := hn
                rw [List.get?_eq_getElem?] at hn2
                rw [presetPhase_disk _ _ hpm]
                simp [hn, hn2]
            | some en =>
                have hn2 := hn
                rw [List.get?_eq_getElem?] at hn2
                cases he : alookup cfg.environments en with
                | none =>
                    rw [presetPhase_disk _ _ hpm]
                    simp [hn, hn2, he]
                | some ecfg =>
                    rw [presetPhase_disk _ _ hpm]
                    simp only [hn, hn2, he]
                    obtain ⟨ex, hex⟩ :=
                      exportPhase_exported_only envv ⟨w.exportOk, false, false⟩ s cfg ecfg
                    rw [hex]
                    rfl

/-- C9: witness — with a succeeding export write, the tui.rs Commit
returns to the loop on the sample state, and a failing main-document
write leaves the persisted document untouched. -/
theorem C9_witness :
    (∃ t, commit_tui [] allOk stSample = Except.ok t) ∧
    (commit_main [] ⟨allOk.exportOk, false, false⟩ stSample).disk = stSample.disk :=
  C9_amended [] allOk stSample rfl

/-! ## Claim C10 -/

/-- C10: with the Servers column focused and an index inside the
checkbox vector selected, ToggleServer applied twice restores the
entire state, and a single application changes nothing but the checkbox
vector; with the selected index outside the vector, a single
ToggleServer changes nothing at all. -/
theorem C10_toggle (s : TuiState) (idx : Nat)
    (hcol : s.active_col = ActiveColumn.McpServers)
    (hsel : s.mcp_sel = some idx) :
    (idx < s.mcp_checked.length →
       toggleServer (toggleServer s) = s ∧
       toggleServer s = { s with mcp_checked := (toggleServer s).mcp_checked }) ∧
    (¬ idx < s.mcp_checked.length → toggleServer s = s) := by
  have htog : ∀ t : TuiState, t.active_col = ActiveColumn.McpServers →
      t.mcp_sel = some idx →
      toggleServer t = if idx < t.mcp_checked.length then
        { t with mcp_checked := t.mcp_checked.set idx (!(t.mcp_checked.getD idx false)) }
      else t := by
    intro t hc hm
    unfold toggleServer
    rw [hc, hm]
  constructor
  · intro hlt
    have h1 : toggleServer s =
        { s with mcp_checked := s.mcp_checked.set idx (!(s.mcp_checked.getD idx false)) } := by
      rw [htog s hcol hsel, if_pos hlt]
    constructor
    · have hcol2 : ({ s with mcp_checked := s.mcp_checked.set idx (!(s.mcp_checked.getD idx false)) } : TuiState).active_col = ActiveColumn.McpServers := hcol
      have hsel2 : ({ s with mcp_checked := s.mcp_checked.set idx (!(s.mcp_checked.getD idx false)) } : TuiState).mcp_sel = some idx := hsel
      rw [h1, htog _ hcol2 hsel2, if_pos (by simpa using hlt)]
      have h2 : ((s.mcp_checked.set idx (!(s.mcp_checked.getD idx false))).getD idx false) =
          !(s.mcp_checked.getD idx false) :=
        getD_set_self_bool _ _ _ (by simpa using hlt)
      rw [show ({ s with mcp_checked := s.mcp_checked.set idx (!(s.mcp_checked.getD idx false)) } : TuiState).mcp_checked = s.mcp_checked.set idx (!(s.mcp_checked.getD idx false)) from rfl, h2,
        Bool.not_not, List.set_set, set_getD_self_bool _ _ hlt]
    · rw [h1]
  · intro hge
    rw [htog s hcol hsel, if_neg hge]

/-- C10: witness — the involution applied at the concrete Servers-focused
sample state with index 0 selected. -/
theorem C10_witness : toggleServer (toggleServer stServers) = stServers :=
  ((C10_toggle stServers 0 rfl rfl).1 (by decide)).1

end MCPallete
